/-
Verification of the core mechanisms of this repository against its
natural-language specification:

* the batch grouping/ungrouping codec (OpGroupingManager.groupBatch and
  OpGroupingManager.ungroupOp in
  packages/runtime/container-runtime/src, together with isGroupContents);
* the async dedup cache (PromiseCache, GarbageCollector in
  common/lib/common-utils/src/promiseCache.ts), embedded as an executable
  state machine over cooperative interleavings of its operations, promise
  settlement handlers and GC timer firings;
* the attachment-propagation broker (ChannelAttachBroker in
  packages/runtime/runtime-utils/src/channelAttachBroker.ts), embedded as a
  fuel-indexed depth-first propagation over a finite reference graph.

Machine integers of the source are modelled as Int/Nat (the counters
involved never overflow in the source semantics under consideration).
-/
import Mathlib

set_option autoImplicit false

namespace OpGrouping

mutual
/-- The parsed form of a serialized message `contents` string.  The source
keeps `contents` as a serialized JSON string (`string | undefined`) and moves
between the string and its parsed value with `ToJsonString` / `JSON.parse`.
`ToJsonString` lives in `../messageTypes`, which is not part of the source
excerpt; per the spec wire contract (section 6: the grouped envelope
`contents`, once parsed, is `\x7b type, contents: [...] \x7d`), serialization
is modelled by the parsed value itself, i.e. a faithful
serialize/parse pair is elided to the identity on this value domain.
A value either carries the reserved `groupedBatch` type marker together with
the array of grouped triples, or it is any other value (modelled as an
uninterpreted string). -/
inductive OpContents where
  | value (v : String)
  | grouped (msgs : List IGroupedMessage)

/-- One element of the grouped envelope: the `\x7bcontents, metadata,
compression\x7d` triple of a source record
(interface IGroupedMessage in the source). -/
inductive IGroupedMessage where
  | mk (contents : Option OpContents)
       (metadata : Option (List (String × String)))
       (compression : Option String)
end

/-- Projection for the `contents` field of IGroupedMessage. -/
def IGroupedMessage.contents : IGroupedMessage → Option OpContents
  | .mk c _ _ => c

/-- Projection for the `metadata` field of IGroupedMessage.  A metadata
record (`Record<string, unknown>`) is modelled as an association list of its
keys; property values are uninterpreted strings. -/
def IGroupedMessage.metadata : IGroupedMessage → Option (List (String × String))
  | .mk _ m _ => m

/-- Projection for the `compression` field of IGroupedMessage. -/
def IGroupedMessage.compression : IGroupedMessage → Option String
  | .mk _ _ c => c

/-- One outbound message of a batch (the `BatchMessage` shape used by
`groupBatch`): serialized `contents` (modelled parsed, see `OpContents`),
`metadata`, `compression`, `referenceSequenceNumber`, `localOpMetadata` and
the message `type`. -/
structure BatchMessage where
  contents : Option OpContents
  metadata : Option (List (String × String))
  compression : Option String
  referenceSequenceNumber : Int
  localOpMetadata : Option String
  type : String

/-- An outbound batch (`IBatch`): its ordered `content` plus the other batch
level fields, represented by `contentSizeInBytes`, which the
`\x7b ...batch \x7d` spread in `groupBatch` carries over unchanged. -/
structure IBatch where
  content : List BatchMessage
  contentSizeInBytes : Nat

/-- A received, sequenced message (`ISequencedDocumentMessage` of the
protocol definitions): the fields `ungroupOp` reads, copies or overrides. -/
structure ISequencedDocumentMessage where
  clientId : Option String
  sequenceNumber : Int
  minimumSequenceNumber : Int
  clientSequenceNumber : Int
  referenceSequenceNumber : Int
  type : String
  contents : Option OpContents
  metadata : Option (List (String × String))
  compression : Option String
  timestamp : Int

/-- The reserved type marker `OpGroupingManager.groupedBatchOp`. -/
def groupedBatchOp : String := "groupedBatch"

/-- Source function isGroupContents: true iff the (parsed) contents carry the
reserved type marker. -/
def isGroupContents : Option OpContents → Bool
  | some (OpContents.grouped _) => true
  | _ => false

/-- Error outcomes of the two assert statements inside `groupBatch`
(codes 0x5dd and 0x5de in the source). -/
inductive GroupingError where
  | metadataTooManyKeys
  | unexpectedMetadataKey
deriving DecidableEq

/-- The per-message validation loop body of `groupBatch`: if the message has
metadata, its key list must have fewer than two keys, and if one key is
present it must be exactly "batch". -/
def validateMessage (m : BatchMessage) : Except GroupingError Unit :=
  match m.metadata with
  | none => Except.ok ()
  | some md =>
      if ¬ (md.map Prod.fst).length < 2 then
        Except.error GroupingError.metadataTooManyKeys
      else if ¬ ((md.map Prod.fst).length = 0 ∨
                 (md.map Prod.fst).head? = some "batch") then
        Except.error GroupingError.unexpectedMetadataKey
      else Except.ok ()

/-- The validation loop of `groupBatch` over the whole batch content; the
first failing assert aborts. -/
def validateBatch : List BatchMessage → Except GroupingError Unit
  | [] => Except.ok ()
  | m :: rest =>
      match validateMessage m with
      | Except.error e => Except.error e
      | Except.ok _ => validateBatch rest

/-- The map building the grouped triples inside `groupBatch`:
`contents: message.contents === undefined ? undefined :
JSON.parse(message.contents)` (parse elided, see `OpContents`),
plus `metadata` and `compression`. -/
def toGroupedMessage (m : BatchMessage) : IGroupedMessage :=
  IGroupedMessage.mk m.contents m.metadata m.compression

/-- The serialized envelope content built by `groupBatch`
(`ToJsonString(\x7b type: groupedBatchOp, contents: ... \x7d)`, serialization
elided to the parsed value). -/
def serializedContentOf (content : List BatchMessage) : OpContents :=
  OpContents.grouped (content.map toGroupedMessage)

/-- `batch.content[0].referenceSequenceNumber`; only evaluated when the
content is nonempty (`groupBatch` guards on length at least 2). -/
def headRefSeq : List BatchMessage → Int
  | [] => 0
  | m :: _ => m.referenceSequenceNumber

/-- The single synthetic record of the grouped batch built by `groupBatch`. -/
def groupedEnvelope (content : List BatchMessage) : BatchMessage :=
  { localOpMetadata := none
    metadata := none
    compression := none
    referenceSequenceNumber := headRefSeq content
    contents := some (serializedContentOf content)
    type := groupedBatchOp }

/-- Source method OpGroupingManager.groupBatch.  The constructor flag
`groupedBatchingEnabled` is passed as the first argument; the two asserts of
the validation loop are modelled as `Except.error`. -/
def groupBatch (groupedBatchingEnabled : Bool) (batch : IBatch) :
    Except GroupingError IBatch :=
  if batch.content.length < 2 ∨ groupedBatchingEnabled = false then
    Except.ok batch
  else
    match validateBatch batch.content with
    | Except.error e => Except.error e
    | Except.ok _ =>
        Except.ok { batch with content := [groupedEnvelope batch.content] }

/-- The map of `ungroupOp` over the envelope elements, with the mutable
counter `fakeCsn` (starting at 1, incremented per element) passed as an
accumulator: each derived record inherits every field of the received op and
overrides `contents`, `metadata`, `compression` and
`clientSequenceNumber`. -/
def ungroupMessages (op : ISequencedDocumentMessage) (fakeCsn : Int) :
    List IGroupedMessage → List ISequencedDocumentMessage
  | [] => []
  | m :: rest =>
      { op with
        contents := m.contents
        metadata := m.metadata
        compression := m.compression
        clientSequenceNumber := fakeCsn } :: ungroupMessages op (fakeCsn + 1) rest

/-- Source method OpGroupingManager.ungroupOp. -/
def ungroupOp (op : ISequencedDocumentMessage) : List ISequencedDocumentMessage :=
  match op.contents with
  | some (OpContents.grouped msgs) => ungroupMessages op 1 msgs
  | _ => [op]

/-- Modelled from the spec: the sequencing service and receive pipeline,
which are outside the source excerpt.  A submitted batch message arrives as a
sequenced message whose outer envelope fields (client id, sequence numbers,
timestamp) are stamped by the service and whose `contents`, `metadata`,
`compression`, `referenceSequenceNumber` and `type` are those of the
submitted message, with `contents` parsed (parse elided, see
`OpContents`). -/
def sequencedForm (m : BatchMessage) (clientId : Option String)
    (seqNum msn csn ts : Int) : ISequencedDocumentMessage :=
  { clientId := clientId
    sequenceNumber := seqNum
    minimumSequenceNumber := msn
    clientSequenceNumber := csn
    referenceSequenceNumber := m.referenceSequenceNumber
    type := m.type
    contents := m.contents
    metadata := m.metadata
    compression := m.compression
    timestamp := ts }

/-- First record of the concrete witness batch. -/
def msgA : BatchMessage :=
  { contents := some (OpContents.value "a")
    metadata := none
    compression := none
    referenceSequenceNumber := 5
    localOpMetadata := none
    type := "component" }

/-- Second record of the concrete witness batch. -/
def msgB : BatchMessage :=
  { contents := some (OpContents.value "b")
    metadata := some [("batch", "true")]
    compression := none
    referenceSequenceNumber := 5
    localOpMetadata := none
    type := "component" }

/-- Concrete two-record batch used by witnesses. -/
def twoBatch : IBatch :=
  { content := [msgA, msgB]
    contentSizeInBytes := 17 }

/-- Concrete record with an invalid metadata key, used by witnesses. -/
def badMsg : BatchMessage :=
  { contents := some (OpContents.value "a")
    metadata := some [("flag", "x")]
    compression := none
    referenceSequenceNumber := 9
    localOpMetadata := none
    type := "component" }

/-- Concrete batch with an invalid metadata record, used by witnesses. -/
def badBatch : IBatch :=
  { content :=
      [ badMsg
      , { contents := some (OpContents.value "b")
          metadata := none
          compression := none
          referenceSequenceNumber := 9
          localOpMetadata := none
          type := "component" } ]
    contentSizeInBytes := 11 }

/-- Concrete received record without the reserved marker, used by
witnesses. -/
def plainOp : ISequencedDocumentMessage :=
  { clientId := some "c1"
    sequenceNumber := 42
    minimumSequenceNumber := 40
    clientSequenceNumber := 7
    referenceSequenceNumber := 41
    type := "op"
    contents := some (OpContents.value "payload")
    metadata := none
    compression := none
    timestamp := 1000 }

end OpGrouping

namespace PromiseCacheModel

/-- Association-list lookup, modelling `Map.get`. -/
def lookupKV : List (Nat × Nat) → Nat → Option Nat
  | [], _ => none
  | (a, v) :: t, k => if a = k then some v else lookupKV t k

/-- Association-list removal, modelling `Map.delete` (also used for
`clearTimeout`, keying on the timer id). -/
def eraseKV : List (Nat × Nat) → Nat → List (Nat × Nat)
  | [], _ => []
  | (a, v) :: t, k => if a = k then eraseKV t k else (a, v) :: eraseKV t k

/-- Association-list update with overwrite, modelling `Map.set`. -/
def setKV (l : List (Nat × Nat)) (k v : Nat) : List (Nat × Nat) :=
  (k, v) :: eraseKV l k

/-- Removal of an id from a plain list. -/
def removeId : List Nat → Nat → List Nat
  | [], _ => []
  | a :: t, p => if a = p then removeId t p else a :: removeId t p

/-- The three expiry policies of the source (`PromiseCacheExpiry`). -/
inductive PromiseCacheExpiry where
  | indefinite
  | absolute (durationMs : Nat)
  | sliding (durationMs : Nat)
deriving DecidableEq

/-- The per-instance configuration (`PromiseCacheOptions` after the
constructor applies defaults): the expiry policy and the `removeOnError`
predicate.  Errors are modelled as natural numbers. -/
structure CacheConfig where
  expiry : PromiseCacheExpiry
  removeOnError : Nat → Bool

/-- The instantaneous state of one PromiseCache instance together with the
surrounding cooperative runtime.  Keys, promise ids and timer ids are
natural numbers.

* `cache` is the `Map<TKey, Promise<TResult>>`, mapping keys to promise ids;
* `gcTimeouts` is the `Map` of the GarbageCollector, mapping keys to the
  timer handle last stored for them;
* `liveTimers` is the set of setTimeout callbacks that are scheduled and
  have neither fired nor been cleared, as pairs (timer id, key) — note a
  handle overwritten in `gcTimeouts` by `schedule` stays live here, exactly
  as an un-cleared setTimeout does;
* `promiseKey` records, for each promise created by `addOrGet`, the key it
  was cached under — this determines which key its then/catch handlers
  close over;
* `pending` holds the unsettled promise ids;
* `computeCalls` logs, in order, the key of every invocation of an
  `asyncFn` passed to `addOrGet` (the observable compute effect). -/
structure CacheState where
  nextPromiseId : Nat
  nextTimerId : Nat
  cache : List (Nat × Nat)
  gcTimeouts : List (Nat × Nat)
  liveTimers : List (Nat × Nat)
  promiseKey : List (Nat × Nat)
  pending : List Nat
  computeCalls : List Nat

/-- The empty initial state of a freshly constructed PromiseCache. -/
def initState : CacheState :=
  { nextPromiseId := 0, nextTimerId := 0, cache := [], gcTimeouts := []
    liveTimers := [], promiseKey := [], pending := [], computeCalls := [] }

/-- GarbageCollector.schedule: for a non-indefinite policy, create a new
setTimeout and store its handle under the key — overwriting any handle
already stored there without clearing it, exactly as `Map.set` does. -/
def gcSchedule (cfg : CacheConfig) (k : Nat) (s : CacheState) : CacheState :=
  match cfg.expiry with
  | PromiseCacheExpiry.indefinite => s
  | _ =>
      { s with
        gcTimeouts := setKV s.gcTimeouts k s.nextTimerId
        liveTimers := (s.nextTimerId, k) :: s.liveTimers
        nextTimerId := s.nextTimerId + 1 }

/-- GarbageCollector.cancel: if a handle is stored for the key, clear that
timeout and drop the mapping. -/
def gcCancel (k : Nat) (s : CacheState) : CacheState :=
  match lookupKV s.gcTimeouts k with
  | none => s
  | some t =>
      { s with
        liveTimers := eraseKV s.liveTimers t
        gcTimeouts := eraseKV s.gcTimeouts k }

/-- GarbageCollector.update: cancel and reschedule, but only under the
sliding policy. -/
def gcUpdate (cfg : CacheConfig) (k : Nat) (s : CacheState) : CacheState :=
  match cfg.expiry with
  | PromiseCacheExpiry.sliding _ => gcSchedule cfg k (gcCancel k s)
  | _ => s

/-- PromiseCache.has. -/
def cacheHas (s : CacheState) (k : Nat) : Bool :=
  (lookupKV s.cache k).isSome

/-- The state after the GC side effect of PromiseCache.get: on a hit the GC
updates the timer (sliding refresh). -/
def getState (cfg : CacheConfig) (k : Nat) (s : CacheState) : CacheState :=
  if cacheHas s k then gcUpdate cfg k s else s

/-- PromiseCache.get: on a hit, first let the GC update the timer, then
return the stored promise. -/
def cacheGet (cfg : CacheConfig) (k : Nat) (s : CacheState) :
    Option Nat × CacheState :=
  (lookupKV (getState cfg k s).cache k, getState cfg k s)

/-- PromiseCache.remove: cancel any pending GC for the key, then delete the
mapping, reporting whether it was present. -/
def cacheRemove (k : Nat) (s : CacheState) : Bool × CacheState :=
  let s1 := gcCancel k s
  ((lookupKV s1.cache k).isSome, { s1 with cache := eraseKV s1.cache k })

/-- PromiseCache.addOrGet.  The whole body of the source method executes in
one synchronous slice: although the method is `async`, it contains no await
before `return promise`, so the miss check, the invocation of `asyncFn`, the
`cache.set` and the `gc.schedule` form a single atomic step under
cooperative scheduling.  The installed `.then` / `.catch` handlers run when
the promise settles; they are modelled by the `resolveStep` / `rejectStep`
transitions below.  Returns the promise id handed back to the caller. -/
def addOrGet (cfg : CacheConfig) (k : Nat) (s : CacheState) :
    Nat × CacheState :=
  let s1 := getState cfg k s
  match lookupKV s1.cache k with
  | some p => (p, s1)
  | none =>
      let p := s1.nextPromiseId
      let s2 :=
        { s1 with
          nextPromiseId := p + 1
          computeCalls := s1.computeCalls ++ [k]
          pending := p :: s1.pending
          promiseKey := setKV s1.promiseKey p k
          cache := setKV s1.cache k p }
      (p, gcSchedule cfg k s2)

/-- Fulfilment of a pending promise created by `addOrGet`: the promise
leaves the pending set and its `.then` handler runs, which calls
`gc.update(key)` for the key the handler closed over — unconditionally,
whether or not the cache still holds that key. -/
def resolveStep (cfg : CacheConfig) (p : Nat) (s : CacheState) : CacheState :=
  if s.pending.contains p then
    let s1 := { s with pending := removeId s.pending p }
    match lookupKV s1.promiseKey p with
    | some k => gcUpdate cfg k s1
    | none => s1
  else s

/-- Rejection of a pending promise created by `addOrGet` with error `e`: the
promise leaves the pending set and its `.catch` handler runs, which consults
`removeOnError(error)` and, if true, calls `remove(key)` for the key the
handler closed over — unconditionally, whether or not the cache still maps
that key to this same promise. -/
def rejectStep (cfg : CacheConfig) (p e : Nat) (s : CacheState) : CacheState :=
  if s.pending.contains p then
    let s1 := { s with pending := removeId s.pending p }
    match lookupKV s1.promiseKey p with
    | some k => if cfg.removeOnError e then (cacheRemove k s1).2 else s1
    | none => s1
  else s

/-- Firing of a live setTimeout: the timer leaves the live set and its
callback runs: `cleanup(key)` — which is `PromiseCache.remove(key)` — and
then `GarbageCollector.cancel(key)`. -/
def fireStep (t : Nat) (s : CacheState) : CacheState :=
  match lookupKV s.liveTimers t with
  | none => s
  | some k =>
      let s1 := { s with liveTimers := eraseKV s.liveTimers t }
      gcCancel k (cacheRemove k s1).2

/-- One cooperative-interleaving event against a PromiseCache instance:
a public operation, a promise settlement or a timer firing. -/
inductive CacheEvent where
  | addOrGetE (k : Nat)
  | getE (k : Nat)
  | removeE (k : Nat)
  | resolveE (p : Nat)
  | rejectE (p : Nat) (e : Nat)
  | fireE (t : Nat)
deriving DecidableEq

/-- Apply one event to the state. -/
def applyEvent (cfg : CacheConfig) (ev : CacheEvent) (s : CacheState) :
    CacheState :=
  match ev with
  | CacheEvent.addOrGetE k => (addOrGet cfg k s).2
  | CacheEvent.getE k => (cacheGet cfg k s).2
  | CacheEvent.removeE k => (cacheRemove k s).2
  | CacheEvent.resolveE p => resolveStep cfg p s
  | CacheEvent.rejectE p e => rejectStep cfg p e s
  | CacheEvent.fireE t => fireStep t s

/-- Run a sequence of events. -/
def run (cfg : CacheConfig) (evs : List CacheEvent) (s : CacheState) :
    CacheState :=
  evs.foldl (fun s ev => applyEvent cfg ev s) s

/-- Events that leave the entry stored under key `k` in place: anything
except an explicit removal of `k`, a promise rejection (whose handler may
evict) and a timer firing (which evicts).  Used to phrase the dedup claim:
while the first computation is in flight and nothing evicts the key, later
callers share its promise. -/
def SafeForKey (k : Nat) : CacheEvent → Prop
  | CacheEvent.removeE k2 => k2 ≠ k
  | CacheEvent.rejectE _ _ => False
  | CacheEvent.fireE _ => False
  | _ => True

/-- Sliding-expiry configuration evicting on every error; used by concrete
scenarios. -/
def slidingCfg : CacheConfig :=
  { expiry := PromiseCacheExpiry.sliding 100, removeOnError := fun _ => true }

/-- Configuration evicting exactly on error 0; used by witnesses. -/
def selectiveCfg : CacheConfig :=
  { expiry := PromiseCacheExpiry.sliding 100, removeOnError := fun e => e == 0 }

end PromiseCacheModel

namespace AttachBroker

/-- Fuel-indexed model of ChannelAttachBroker.setAttached over a finite
reference graph.  Brokers are natural numbers below some bound; `refs b`
lists the targets of the `referencedBrokers` set of broker `b` (a JS `Set`
iterates in insertion order, hence a list); the attached state is the set
`s` of brokers whose `_isAttached` flag is true.

`setAttachedF refs fuel s b` models a call to `setAttached` on broker `b`
under the hypothesis of the closure claim: every `attachFn` synchronously
calls `setAttached` on its own broker.  The body mirrors the source: if the
broker is already attached, do nothing; otherwise flip the flag, then for
each referenced target in order, skip it when it is already attached
(the early-return check in the loop and the identical guard in `attach`)
and otherwise run its `attachFn`, i.e. recurse.  The fuel only bounds the
recursion depth; the closure theorem shows that any fuel exceeding the
number of unattached brokers yields the same result, which is how
termination of the source propagation is expressed. -/
def setAttachedF (refs : Nat → List Nat) : Nat → Finset Nat → Nat → Finset Nat
  | 0, s, _ => s
  | fuel + 1, s, b =>
      if b ∈ s then s
      else
        (refs b).foldl
          (fun acc t => if t ∈ acc then acc else setAttachedF refs fuel acc t)
          (insert b s)

/-- ChannelAttachBroker.attach under the same hypothesis: a no-op on an
attached broker, otherwise the `attachFn` runs, i.e. `setAttached`. -/
def attachF (refs : Nat → List Nat) (fuel : Nat) (s : Finset Nat) (b : Nat) :
    Finset Nat :=
  if b ∈ s then s else setAttachedF refs fuel s b

/-- One directed reference edge of the broker graph. -/
def RefStep (refs : Nat → List Nat) (u v : Nat) : Prop := v ∈ refs u

/-- Reachability along reference edges. -/
def Reaches (refs : Nat → List Nat) (b x : Nat) : Prop :=
  Relation.ReflTransGen (RefStep refs) b x

/-- The state invariant maintained by the broker API when every `attachFn`
synchronously calls `setAttached`: an attached broker never references an
unattached one. -/
def RefClosed (refs : Nat → List Nat) (s : Finset Nat) : Prop :=
  ∀ a ∈ s, ∀ t ∈ refs a, t ∈ s

/-- Concrete cyclic/diamond-shaped reference graph used by the closure
witness: 0 references 1 and 2, both reference 3, and 3 references 0
(a diamond closed into a cycle); broker 4 is unreachable. -/
def demoRefs : Nat → List Nat := fun a => ([[1, 2], [3], [3], [0], []].getD a [])

/-- Observable state of a single broker whose `attachFn` suspends: the
`_isAttached` flag and the number of `attachFn` invocations so far.  Used
for the claim that `attach` has no in-progress guard. -/
structure BrokerState where
  isAttached : Bool
  attachFnCalls : Nat
deriving DecidableEq

/-- ChannelAttachBroker.attach for a broker whose `attachFn` suspends before
calling `setAttached`: the only synchronous effect of a call on an
unattached broker is one more `attachFn` invocation. -/
def brokerAttach (s : BrokerState) : BrokerState :=
  if s.isAttached then s else { s with attachFnCalls := s.attachFnCalls + 1 }

/-- ChannelAttachBroker.setAttached restricted to the flag of one broker
(propagation to referenced brokers is the subject of `setAttachedF`). -/
def brokerSetAttached (s : BrokerState) : BrokerState :=
  if s.isAttached then s else { s with isAttached := true }

end AttachBroker

namespace OpGrouping

theorem groupBatch_small (enabled : Bool) (batch : IBatch)
    (h : batch.content.length < 2 ∨ enabled = false) :
    groupBatch enabled batch = Except.ok batch := by
  unfold groupBatch
  rw [if_pos h]

theorem groupBatch_of_valid (batch : IBatch)
    (h2 : 2 ≤ batch.content.length)
    (hv : validateBatch batch.content = Except.ok ()) :
    groupBatch true batch
      = Except.ok { batch with content := [groupedEnvelope batch.content] } := by
  have hcond : ¬ (batch.content.length < 2 ∨ (true : Bool) = false) := by
    simp only [not_or]
    exact ⟨by omega, by simp⟩
  unfold groupBatch
  rw [if_neg hcond, hv]

theorem validateMessage_error_exists (m : BatchMessage)
    (md : List (String × String)) (hmd : m.metadata = some md)
    (hbad : 2 ≤ (md.map Prod.fst).length ∨
      ((md.map Prod.fst).length = 1 ∧ (md.map Prod.fst).head? ≠ some "batch")) :
    ∃ e0, validateMessage m = Except.error e0 := by
  unfold validateMessage
  rw [hmd]
  dsimp only
  rcases hbad with h | ⟨h1, h2⟩
  · exact ⟨GroupingError.metadataTooManyKeys, by rw [if_pos (by omega)]⟩
  · refine ⟨GroupingError.unexpectedMetadataKey, ?_⟩
    rw [if_neg (show ¬¬(md.map Prod.fst).length < 2 by omega), if_pos]
    intro hor
    rcases hor with h0 | hh
    · omega
    · exact h2 hh

theorem validateBatch_error_of_mem (l : List BatchMessage) (m : BatchMessage)
    (hm : m ∈ l) (he : ∃ e0, validateMessage m = Except.error e0) :
    ∃ e, validateBatch l = Except.error e := by
  induction l with
  | nil => cases hm
  | cons a l ih =>
      cases hva : validateMessage a with
      | error e => exact ⟨e, by simp [validateBatch, hva]⟩
      | ok u =>
          cases hm with
          | head =>
              rcases he with ⟨e0, he0⟩
              rw [hva] at he0
              cases he0
          | tail _ hm2 =>
              rcases ih hm2 with ⟨e, hE⟩
              exact ⟨e, by simp [validateBatch, hva, hE]⟩

/-- C6: groupBatch postcondition.  A batch with fewer than two records, or
with grouped batching disabled, is returned unchanged; otherwise, whenever
groupBatch returns a batch (i.e. validation passed), that batch has exactly
one record carrying the reserved `groupedBatch` type marker, whose contents
is the ordered array of the `\x7bcontents, metadata, compression\x7d`
triples of the source records, and whose referenceSequenceNumber equals the
referenceSequenceNumber of the first source record. -/
theorem groupBatch_postcondition (enabled : Bool) (batch : IBatch) :
    (batch.content.length < 2 ∨ enabled = false →
        groupBatch enabled batch = Except.ok batch) ∧
    (2 ≤ batch.content.length → enabled = true →
      ∀ g, groupBatch enabled batch = Except.ok g →
        g.content =
          [{ localOpMetadata := none
             metadata := none
             compression := none
             referenceSequenceNumber := headRefSeq batch.content
             contents := some (OpContents.grouped (batch.content.map toGroupedMessage))
             type := groupedBatchOp }]) := by
  refine ⟨groupBatch_small enabled batch, ?_⟩
  intro h2 henabled g hg
  subst henabled
  have hcond : ¬ (batch.content.length < 2 ∨ (true : Bool) = false) := by
    simp only [not_or]
    exact ⟨by omega, by simp⟩
  unfold groupBatch at hg
  rw [if_neg hcond] at hg
  cases hv : validateBatch batch.content with
  | error e =>
      rw [hv] at hg
      cases hg
  | ok u =>
      rw [hv] at hg
      simp only [Except.ok.injEq] at hg
      subst hg
      rfl

/-- Witness for C6: on a concrete two-record batch with grouping enabled,
the grouped output has the announced single-record shape. -/
theorem groupBatch_postcondition_witness :
    (2 ≤ twoBatch.content.length) ∧
    ({ content := [groupedEnvelope twoBatch.content],
       contentSizeInBytes := 17 } : IBatch).content =
      [{ localOpMetadata := none
         metadata := none
         compression := none
         referenceSequenceNumber := headRefSeq twoBatch.content
         contents := some (OpContents.grouped (twoBatch.content.map toGroupedMessage))
         type := groupedBatchOp }] :=
  ⟨by decide, (groupBatch_postcondition true twoBatch).2 (by decide) rfl _ rfl⟩

/-- C7: metadata validation is fatal.  In a batch eligible for grouping, any
record whose metadata has two or more keys, or exactly one key different
from "batch", makes groupBatch fail with a validation error instead of
producing an envelope. -/
theorem groupBatch_rejects_bad_metadata (batch : IBatch) (m : BatchMessage)
    (md : List (String × String))
    (h2 : 2 ≤ batch.content.length)
    (hm : m ∈ batch.content)
    (hmd : m.metadata = some md)
    (hbad : 2 ≤ (md.map Prod.fst).length ∨
      ((md.map Prod.fst).length = 1 ∧ (md.map Prod.fst).head? ≠ some "batch")) :
    ∃ e, groupBatch true batch = Except.error e := by
  rcases validateBatch_error_of_mem batch.content m hm
      (validateMessage_error_exists m md hmd hbad) with ⟨e, hE⟩
  refine ⟨e, ?_⟩
  have hcond : ¬ (batch.content.length < 2 ∨ (true : Bool) = false) := by
    simp only [not_or]
    exact ⟨by omega, by simp⟩
  unfold groupBatch
  rw [if_neg hcond, hE]

/-- Witness for C7: a concrete batch whose first record has the single
metadata key "flag" is rejected. -/
theorem groupBatch_rejects_bad_metadata_witness :
    (2 ≤ badBatch.content.length) ∧
    (∃ e, groupBatch true badBatch = Except.error e) :=
  ⟨by decide,
   groupBatch_rejects_bad_metadata badBatch badMsg [("flag", "x")] (by decide)
     (List.Mem.head _) rfl (Or.inr ⟨rfl, by decide⟩)⟩

/-- C8: ungroup pass-through.  A received record whose contents does not
carry the reserved `groupedBatch` marker is returned as a singleton list,
unchanged. -/
theorem ungroupOp_passthrough (op : ISequencedDocumentMessage)
    (h : isGroupContents op.contents = false) :
    ungroupOp op = [op] := by
  unfold ungroupOp
  cases hc : op.contents with
  | none => rfl
  | some c =>
      cases c with
      | value v => rfl
      | grouped msgs =>
          rw [hc] at h
          simp [isGroupContents] at h

/-- Witness for C8: a concrete plain record passes through unchanged. -/
theorem ungroupOp_passthrough_witness :
    isGroupContents plainOp.contents = false ∧ ungroupOp plainOp = [plainOp] :=
  ⟨rfl, ungroupOp_passthrough plainOp rfl⟩

theorem ungroupMessages_length (op : ISequencedDocumentMessage) :
    ∀ (msgs : List IGroupedMessage) (fakeCsn : Int),
      (ungroupMessages op fakeCsn msgs).length = msgs.length
  | [], _ => rfl
  | _ :: rest, fakeCsn => by
      simp [ungroupMessages, ungroupMessages_length op rest (fakeCsn + 1)]

theorem ungroupMessages_get? (op : ISequencedDocumentMessage) :
    ∀ (msgs : List IGroupedMessage) (fakeCsn : Int) (i : Nat),
      (ungroupMessages op fakeCsn msgs).get? i =
        (msgs.get? i).map (fun mm =>
          { op with
            contents := mm.contents
            metadata := mm.metadata
            compression := mm.compression
            clientSequenceNumber := fakeCsn + (i : Int) })
  | [], fakeCsn, i => by simp [ungroupMessages]
  | m :: rest, fakeCsn, 0 => by simp [ungroupMessages]
  | m :: rest, fakeCsn, i + 1 => by
      have h := ungroupMessages_get? op rest (fakeCsn + 1) i
      simp only [ungroupMessages, List.get?] at h ⊢
      rw [h]
      have hc : fakeCsn + 1 + (i : Int) = fakeCsn + ((i + 1 : Nat) : Int) := by
        push_cast
        ring
      rw [hc]

/-- C2: grouping round-trip.  For a batch of at least two valid records with
grouping enabled, groupBatch yields the single grouped envelope, and
ungroupOp applied to the received (sequenced) form of that envelope yields
exactly N records whose contents, metadata and compression are those of the
originals in original order, with synthetic clientSequenceNumber values
1, 2, ..., N; and any batch of length 0 or 1 is returned unchanged by
groupBatch. -/
theorem grouping_roundtrip (batch : IBatch) (cid : Option String)
    (sn msn csn ts : Int)
    (h2 : 2 ≤ batch.content.length)
    (hv : validateBatch batch.content = Except.ok ()) :
    groupBatch true batch
      = Except.ok { batch with content := [groupedEnvelope batch.content] } ∧
    (ungroupOp (sequencedForm (groupedEnvelope batch.content) cid sn msn csn ts)).length
      = batch.content.length ∧
    (∀ (i : Nat) (m0 : BatchMessage), batch.content.get? i = some m0 →
      (ungroupOp (sequencedForm (groupedEnvelope batch.content) cid sn msn csn ts)).get? i
        = some { sequencedForm (groupedEnvelope batch.content) cid sn msn csn ts with
                 contents := m0.contents
                 metadata := m0.metadata
                 compression := m0.compression
                 clientSequenceNumber := 1 + (i : Int) }) ∧
    (∀ (enabled2 : Bool) (batch2 : IBatch), batch2.content.length ≤ 1 →
      groupBatch enabled2 batch2 = Except.ok batch2) := by
  have hun : ungroupOp (sequencedForm (groupedEnvelope batch.content) cid sn msn csn ts)
      = ungroupMessages (sequencedForm (groupedEnvelope batch.content) cid sn msn csn ts)
          1 (batch.content.map toGroupedMessage) := rfl
  refine ⟨groupBatch_of_valid batch h2 hv, ?_, ?_, ?_⟩
  · rw [hun, ungroupMessages_length, List.length_map]
  · intro i m0 hm0
    rw [hun, ungroupMessages_get?, List.get?_map, hm0]
    simp [toGroupedMessage, IGroupedMessage.contents, IGroupedMessage.metadata,
      IGroupedMessage.compression]
  · intro enabled2 batch2 hle
    exact groupBatch_small enabled2 batch2 (Or.inl (by omega))

/-- Witness for C2: on the concrete two-record batch, the first derived
record of the round trip carries the contents of the first original and the
synthetic clientSequenceNumber 1. -/
theorem grouping_roundtrip_witness :
    (2 ≤ twoBatch.content.length) ∧
    (ungroupOp (sequencedForm (groupedEnvelope twoBatch.content)
        (some "c1") 50 48 3 999)).get? 0
      = some { sequencedForm (groupedEnvelope twoBatch.content)
                 (some "c1") 50 48 3 999 with
               contents := msgA.contents
               metadata := msgA.metadata
               compression := msgA.compression
               clientSequenceNumber := 1 + ((0 : Nat) : Int) } :=
  ⟨by decide,
   (grouping_roundtrip twoBatch (some "c1") 50 48 3 999 (by decide) rfl).2.2.1
     0 msgA rfl⟩

end OpGrouping

namespace PromiseCacheModel

theorem lookupKV_eraseKV_self : ∀ (l : List (Nat × Nat)) (k : Nat),
    lookupKV (eraseKV l k) k = none
  | [], _ => rfl
  | (a, v) :: t, k => by
      by_cases h : a = k
      · simp [eraseKV, h, lookupKV_eraseKV_self t k]
      · simp [eraseKV, h, lookupKV, lookupKV_eraseKV_self t k]

theorem lookupKV_eraseKV_ne : ∀ (l : List (Nat × Nat)) (k k2 : Nat),
    k2 ≠ k → lookupKV (eraseKV l k) k2 = lookupKV l k2
  | [], _, _, _ => rfl
  | (a, v) :: t, k, k2, h => by
      by_cases hak : a = k
      · subst hak
        have ha2 : ¬ a = k2 := fun he => h (he.symm.trans rfl)
        simp [eraseKV, lookupKV, ha2, lookupKV_eraseKV_ne t a k2 h]
      · by_cases ha2 : a = k2
        · simp [eraseKV, hak, lookupKV, ha2, h]
        · simp [eraseKV, hak, lookupKV, ha2, lookupKV_eraseKV_ne t k k2 h]

theorem lookupKV_setKV_self (l : List (Nat × Nat)) (k v : Nat) :
    lookupKV (setKV l k v) k = some v := by
  simp [setKV, lookupKV]

theorem lookupKV_setKV_ne (l : List (Nat × Nat)) (k v k2 : Nat)
    (h : k2 ≠ k) : lookupKV (setKV l k v) k2 = lookupKV l k2 := by
  have hk : ¬ k = k2 := fun he => h he.symm
  simp only [setKV, lookupKV, if_neg hk]
  exact lookupKV_eraseKV_ne l k k2 h

theorem gcSchedule_core (cfg : CacheConfig) (k : Nat) (s : CacheState) :
    (gcSchedule cfg k s).cache = s.cache ∧
    (gcSchedule cfg k s).computeCalls = s.computeCalls ∧
    (gcSchedule cfg k s).pending = s.pending ∧
    (gcSchedule cfg k s).promiseKey = s.promiseKey ∧
    (gcSchedule cfg k s).nextPromiseId = s.nextPromiseId := by
  cases hc : cfg.expiry <;> simp [gcSchedule, hc]

theorem gcCancel_core (k : Nat) (s : CacheState) :
    (gcCancel k s).cache = s.cache ∧
    (gcCancel k s).computeCalls = s.computeCalls ∧
    (gcCancel k s).pending = s.pending ∧
    (gcCancel k s).promiseKey = s.promiseKey ∧
    (gcCancel k s).nextPromiseId = s.nextPromiseId := by
  unfold gcCancel
  cases lookupKV s.gcTimeouts k <;> simp

theorem gcUpdate_core (cfg : CacheConfig) (k : Nat) (s : CacheState) :
    (gcUpdate cfg k s).cache = s.cache ∧
    (gcUpdate cfg k s).computeCalls = s.computeCalls ∧
    (gcUpdate cfg k s).pending = s.pending ∧
    (gcUpdate cfg k s).promiseKey = s.promiseKey ∧
    (gcUpdate cfg k s).nextPromiseId = s.nextPromiseId := by
  unfold gcUpdate
  cases hc : cfg.expiry with
  | sliding d =>
      have h1 := gcCancel_core k s
      have h2 := gcSchedule_core cfg k (gcCancel k s)
      exact ⟨h2.1.trans h1.1, h2.2.1.trans h1.2.1, h2.2.2.1.trans h1.2.2.1,
        h2.2.2.2.1.trans h1.2.2.2.1, h2.2.2.2.2.trans h1.2.2.2.2⟩
  | indefinite => simp
  | absolute d => simp

theorem getState_core (cfg : CacheConfig) (k : Nat) (s : CacheState) :
    (getState cfg k s).cache = s.cache ∧
    (getState cfg k s).computeCalls = s.computeCalls ∧
    (getState cfg k s).pending = s.pending ∧
    (getState cfg k s).promiseKey = s.promiseKey ∧
    (getState cfg k s).nextPromiseId = s.nextPromiseId := by
  unfold getState
  cases h : cacheHas s k
  · simp
  · simp [gcUpdate_core cfg k s]

theorem addOrGet_miss (cfg : CacheConfig) (k : Nat) (s : CacheState)
    (h : lookupKV s.cache k = none) :
    addOrGet cfg k s =
      (s.nextPromiseId,
       gcSchedule cfg k
         { s with
           nextPromiseId := s.nextPromiseId + 1
           computeCalls := s.computeCalls ++ [k]
           pending := s.nextPromiseId :: s.pending
           promiseKey := setKV s.promiseKey s.nextPromiseId k
           cache := setKV s.cache k s.nextPromiseId }) := by
  have hh : getState cfg k s = s := by
    unfold getState cacheHas
    rw [h]
    rfl
  unfold addOrGet
  rw [hh]
  simp only [h]

theorem addOrGet_hit (cfg : CacheConfig) (k : Nat) (s : CacheState) (p : Nat)
    (h : lookupKV s.cache k = some p) :
    (addOrGet cfg k s).1 = p ∧ (addOrGet cfg k s).2 = getState cfg k s := by
  have h2 : lookupKV (getState cfg k s).cache k = some p := by
    rw [(getState_core cfg k s).1, h]
  unfold addOrGet
  dsimp only
  rw [h2]
  exact ⟨rfl, rfl⟩

theorem safe_preserves (cfg : CacheConfig) (k p : Nat) (ev : CacheEvent)
    (s : CacheState) (hsafe : SafeForKey k ev)
    (hc : lookupKV s.cache k = some p) :
    lookupKV (applyEvent cfg ev s).cache k = some p ∧
    (applyEvent cfg ev s).computeCalls.count k = s.computeCalls.count k := by
  cases ev with
  | addOrGetE k2 =>
      show lookupKV (addOrGet cfg k2 s).2.cache k = some p ∧
        (addOrGet cfg k2 s).2.computeCalls.count k = s.computeCalls.count k
      cases h2 : lookupKV s.cache k2 with
      | some q =>
          have hh := addOrGet_hit cfg k2 s q h2
          rw [hh.2, (getState_core cfg k2 s).1, (getState_core cfg k2 s).2.1]
          exact ⟨hc, rfl⟩
      | none =>
          have hne : k2 ≠ k := by
            intro he
            rw [he, hc] at h2
            cases h2
          rw [addOrGet_miss cfg k2 s h2]
          dsimp only
          rw [(gcSchedule_core cfg k2 _).1, (gcSchedule_core cfg k2 _).2.1]
          constructor
          · dsimp only
            rw [lookupKV_setKV_ne _ _ _ _ (Ne.symm hne)]
            exact hc
          · dsimp only
            rw [List.count_append]
            simp [hne, Ne.symm hne]
  | getE k2 =>
      show lookupKV (getState cfg k2 s).cache k = some p ∧
        (getState cfg k2 s).computeCalls.count k = s.computeCalls.count k
      rw [(getState_core cfg k2 s).1, (getState_core cfg k2 s).2.1]
      exact ⟨hc, rfl⟩
  | removeE k2 =>
      have hne : k ≠ k2 := Ne.symm hsafe
      show lookupKV (cacheRemove k2 s).2.cache k = some p ∧
        (cacheRemove k2 s).2.computeCalls.count k = s.computeCalls.count k
      unfold cacheRemove
      dsimp only
      constructor
      · rw [lookupKV_eraseKV_ne _ _ _ hne, (gcCancel_core k2 s).1]
        exact hc
      · rw [(gcCancel_core k2 s).2.1]
  | resolveE p2 =>
      show lookupKV (resolveStep cfg p2 s).cache k = some p ∧
        (resolveStep cfg p2 s).computeCalls.count k = s.computeCalls.count k
      unfold resolveStep
      cases hcont : s.pending.contains p2
      · simp [hc]
      · dsimp only
        simp only [if_true]
        cases hpk : lookupKV s.promiseKey p2 with
        | none => exact ⟨hc, rfl⟩
        | some k3 =>
            rw [(gcUpdate_core cfg k3 _).1, (gcUpdate_core cfg k3 _).2.1]
            exact ⟨hc, rfl⟩
  | rejectE p2 e2 => exact hsafe.elim
  | fireE t => exact hsafe.elim

theorem run_safe_preserves (cfg : CacheConfig) (k p : Nat) :
    ∀ (evs : List CacheEvent) (s0 : CacheState),
      (∀ ev ∈ evs, SafeForKey k ev) →
      lookupKV s0.cache k = some p →
      lookupKV (run cfg evs s0).cache k = some p ∧
      (run cfg evs s0).computeCalls.count k = s0.computeCalls.count k
  | [], _, _, hc => ⟨hc, rfl⟩
  | ev :: evs, s0, hsafe, hc => by
      have h1 := safe_preserves cfg k p ev s0
        (hsafe ev (List.mem_cons_self ev evs)) hc
      have h2 := run_safe_preserves cfg k p evs (applyEvent cfg ev s0)
        (fun e he => hsafe e (List.mem_cons_of_mem ev he)) h1.1
      exact ⟨h2.1, h2.2.trans h1.2⟩

end PromiseCacheModel

namespace PromiseCacheModel

/-- C1: at-most-one-concurrent-execution.  When addOrGet finds no entry
under the key, it invokes the compute function exactly once and stores the
resulting in-flight promise under the key within the same synchronous step
(the source method contains no suspension point before the store); any
later addOrGet or get for the same key — after any interleaving of events
that does not evict the key — returns that very promise and does not invoke
compute again. -/
theorem addOrGet_at_most_once (cfg : CacheConfig) (k : Nat) (s : CacheState)
    (hmiss : lookupKV s.cache k = none) :
    lookupKV (addOrGet cfg k s).2.cache k = some (addOrGet cfg k s).1 ∧
    (addOrGet cfg k s).2.computeCalls = s.computeCalls ++ [k] ∧
    (addOrGet cfg k s).2.pending.contains (addOrGet cfg k s).1 = true ∧
    ∀ (evs : List CacheEvent), (∀ ev ∈ evs, SafeForKey k ev) →
      (run cfg evs (addOrGet cfg k s).2).computeCalls.count k
          = s.computeCalls.count k + 1 ∧
      (cacheGet cfg k (run cfg evs (addOrGet cfg k s).2)).1
          = some (addOrGet cfg k s).1 ∧
      (addOrGet cfg k (run cfg evs (addOrGet cfg k s).2)).1
          = (addOrGet cfg k s).1 ∧
      (addOrGet cfg k (run cfg evs (addOrGet cfg k s).2)).2.computeCalls
          = (run cfg evs (addOrGet cfg k s).2).computeCalls := by
  rw [addOrGet_miss cfg k s hmiss]
  dsimp only
  have hcore := gcSchedule_core cfg k
    { s with
      nextPromiseId := s.nextPromiseId + 1
      computeCalls := s.computeCalls ++ [k]
      pending := s.nextPromiseId :: s.pending
      promiseKey := setKV s.promiseKey s.nextPromiseId k
      cache := setKV s.cache k s.nextPromiseId }
  have hstored : lookupKV (gcSchedule cfg k
      { s with
        nextPromiseId := s.nextPromiseId + 1
        computeCalls := s.computeCalls ++ [k]
        pending := s.nextPromiseId :: s.pending
        promiseKey := setKV s.promiseKey s.nextPromiseId k
        cache := setKV s.cache k s.nextPromiseId }).cache k
      = some s.nextPromiseId := by
    rw [hcore.1]
    exact lookupKV_setKV_self s.cache k s.nextPromiseId
  refine ⟨hstored, hcore.2.1, ?_, ?_⟩
  · rw [hcore.2.2.1]
    simp
  · intro evs hsafe
    have hrun := run_safe_preserves cfg k s.nextPromiseId evs _ hsafe hstored
    have hcount : (run cfg evs (gcSchedule cfg k
        { s with
          nextPromiseId := s.nextPromiseId + 1
          computeCalls := s.computeCalls ++ [k]
          pending := s.nextPromiseId :: s.pending
          promiseKey := setKV s.promiseKey s.nextPromiseId k
          cache := setKV s.cache k s.nextPromiseId })).computeCalls.count k
        = s.computeCalls.count k + 1 := by
      rw [hrun.2, hcore.2.1]
      simp [List.count_append]
    have hhit := addOrGet_hit cfg k _ s.nextPromiseId hrun.1
    refine ⟨hcount, ?_, hhit.1, ?_⟩
    · show lookupKV (getState cfg k _).cache k = _
      rw [(getState_core cfg k _).1]
      exact hrun.1
    · rw [hhit.2, (getState_core cfg k _).2.1]

/-- Witness for C1: from the empty state, a miss on key 0 computes once and
a later addOrGet after benign interleaving returns the same promise without
recomputation. -/
theorem addOrGet_at_most_once_witness :
    (lookupKV initState.cache 0 = none) ∧
    ((run slidingCfg [CacheEvent.getE 0, CacheEvent.addOrGetE 0]
        (addOrGet slidingCfg 0 initState).2).computeCalls.count 0
      = initState.computeCalls.count 0 + 1) ∧
    ((addOrGet slidingCfg 0 (run slidingCfg
        [CacheEvent.getE 0, CacheEvent.addOrGetE 0]
        (addOrGet slidingCfg 0 initState).2)).1
      = (addOrGet slidingCfg 0 initState).1) :=
  ⟨rfl,
   ((addOrGet_at_most_once slidingCfg 0 initState rfl).2.2.2
      [CacheEvent.getE 0, CacheEvent.addOrGetE 0]
      (by intro ev hev; fin_cases hev <;> trivial)).1,
   (((addOrGet_at_most_once slidingCfg 0 initState rfl).2.2.2
      [CacheEvent.getE 0, CacheEvent.addOrGetE 0]
      (by intro ev hev; fin_cases hev <;> trivial)).2.2.1)⟩

theorem gcCancel_gcTimeouts_self (k : Nat) (s : CacheState) :
    lookupKV (gcCancel k s).gcTimeouts k = none := by
  unfold gcCancel
  cases h : lookupKV s.gcTimeouts k with
  | none => exact h
  | some t => exact lookupKV_eraseKV_self s.gcTimeouts k

theorem rejectStep_evicts (cfg : CacheConfig) (p e k : Nat) (s : CacheState)
    (hk : lookupKV s.promiseKey p = some k)
    (hp : s.pending.contains p = true)
    (hre : cfg.removeOnError e = true) :
    (rejectStep cfg p e s).cache = eraseKV s.cache k ∧
    lookupKV (rejectStep cfg p e s).gcTimeouts k = none ∧
    (∀ t, lookupKV s.gcTimeouts k = some t →
       lookupKV (rejectStep cfg p e s).liveTimers t = none) ∧
    (rejectStep cfg p e s).computeCalls = s.computeCalls ∧
    (rejectStep cfg p e s).nextPromiseId = s.nextPromiseId := by
  unfold rejectStep
  rw [hp]
  dsimp only
  simp only [if_true]
  rw [hk, hre]
  simp only [if_true]
  unfold cacheRemove
  dsimp only
  refine ⟨?_, ?_, ?_, ?_, ?_⟩
  · rw [(gcCancel_core k _).1]
  · exact gcCancel_gcTimeouts_self k _
  · intro t ht
    unfold gcCancel
    rw [show lookupKV ({ s with pending := removeId s.pending p } :
        CacheState).gcTimeouts k = some t from ht]
    exact lookupKV_eraseKV_self _ t
  · rw [(gcCancel_core k _).2.1]
  · rw [(gcCancel_core k _).2.2.2.2]

theorem rejectStep_keeps (cfg : CacheConfig) (p e k : Nat) (s : CacheState)
    (hk : lookupKV s.promiseKey p = some k)
    (hp : s.pending.contains p = true)
    (hre : cfg.removeOnError e = false) :
    rejectStep cfg p e s = { s with pending := removeId s.pending p } := by
  unfold rejectStep
  rw [hp]
  dsimp only
  simp only [if_true]
  rw [hk, hre]
  simp

/-- C4: error eviction.  When the promise cached under a key rejects and
removeOnError accepts the error, the entry is evicted — the mapping removed,
the GC mapping dropped and the pending timer cleared — so a subsequent
addOrGet invokes compute again with a fresh promise; when removeOnError
declines, the failed promise stays cached and is returned again without
recomputation. -/
theorem reject_eviction (cfg : CacheConfig) (k p e : Nat) (s : CacheState)
    (hc : lookupKV s.cache k = some p)
    (hk : lookupKV s.promiseKey p = some k)
    (hp : s.pending.contains p = true) :
    (cfg.removeOnError e = true →
       lookupKV (rejectStep cfg p e s).cache k = none ∧
       lookupKV (rejectStep cfg p e s).gcTimeouts k = none ∧
       (∀ t, lookupKV s.gcTimeouts k = some t →
          lookupKV (rejectStep cfg p e s).liveTimers t = none) ∧
       (addOrGet cfg k (rejectStep cfg p e s)).2.computeCalls
         = (rejectStep cfg p e s).computeCalls ++ [k] ∧
       (addOrGet cfg k (rejectStep cfg p e s)).1
         = (rejectStep cfg p e s).nextPromiseId) ∧
    (cfg.removeOnError e = false →
       lookupKV (rejectStep cfg p e s).cache k = some p ∧
       (addOrGet cfg k (rejectStep cfg p e s)).1 = p ∧
       (addOrGet cfg k (rejectStep cfg p e s)).2.computeCalls
         = (rejectStep cfg p e s).computeCalls) := by
  constructor
  · intro hre
    have hev := rejectStep_evicts cfg p e k s hk hp hre
    have hnone : lookupKV (rejectStep cfg p e s).cache k = none := by
      rw [hev.1]
      exact lookupKV_eraseKV_self s.cache k
    refine ⟨hnone, hev.2.1, hev.2.2.1, ?_, ?_⟩
    · rw [addOrGet_miss cfg k _ hnone]
      dsimp only
      rw [(gcSchedule_core cfg k _).2.1]
    · rw [addOrGet_miss cfg k _ hnone]
  · intro hre
    have hkeep := rejectStep_keeps cfg p e k s hk hp hre
    have hsome : lookupKV (rejectStep cfg p e s).cache k = some p := by
      rw [hkeep]
      exact hc
    have hhit := addOrGet_hit cfg k _ p hsome
    exact ⟨hsome, hhit.1, by rw [hhit.2, (getState_core cfg k _).2.1]⟩

/-- Witness for C4: on a concrete state with promise 0 cached under key 0,
rejecting with the evicting error 0 clears the mapping, rejecting with the
non-evicting error 1 keeps it. -/
theorem reject_eviction_witness :
    (lookupKV (run selectiveCfg [CacheEvent.addOrGetE 0] initState).cache 0
       = some 0) ∧
    (lookupKV (rejectStep selectiveCfg 0 0
        (run selectiveCfg [CacheEvent.addOrGetE 0] initState)).cache 0
       = none) ∧
    (lookupKV (rejectStep selectiveCfg 0 1
        (run selectiveCfg [CacheEvent.addOrGetE 0] initState)).cache 0
       = some 0) :=
  ⟨by decide,
   ((reject_eviction selectiveCfg 0 0 0
      (run selectiveCfg [CacheEvent.addOrGetE 0] initState)
      (by decide) (by decide) (by decide)).1 (by decide)).1,
   ((reject_eviction selectiveCfg 0 0 1
      (run selectiveCfg [CacheEvent.addOrGetE 0] initState)
      (by decide) (by decide) (by decide)).2 (by decide)).1⟩

/-- C10: the rejection handler installed by addOrGet removes whatever entry
currently sits under its key, without checking that the cache still maps the
key to the promise that failed: a late rejection of an old promise evicts a
newer entry stored under the same key, cancelling its timer and deleting its
mapping. -/
theorem late_rejection_clobbers (cfg : CacheConfig) (k p pNew e : Nat)
    (s : CacheState)
    (hcNew : lookupKV s.cache k = some pNew)
    (hne : pNew ≠ p)
    (hk : lookupKV s.promiseKey p = some k)
    (hp : s.pending.contains p = true)
    (hre : cfg.removeOnError e = true) :
    lookupKV (rejectStep cfg p e s).cache k = none ∧
    lookupKV (rejectStep cfg p e s).gcTimeouts k = none ∧
    (∀ t, lookupKV s.gcTimeouts k = some t →
       lookupKV (rejectStep cfg p e s).liveTimers t = none) := by
  have hev := rejectStep_evicts cfg p e k s hk hp hre
  refine ⟨?_, hev.2.1, hev.2.2.1⟩
  rw [hev.1]
  exact lookupKV_eraseKV_self s.cache k

/-- Witness for C10: promise 0 is cached under key 0, removed, and a fresh
promise 1 cached under key 0; the late rejection of promise 0 then deletes
the mapping of promise 1. -/
theorem late_rejection_clobbers_witness :
    (lookupKV (run selectiveCfg
        [CacheEvent.addOrGetE 0, CacheEvent.removeE 0, CacheEvent.addOrGetE 0]
        initState).cache 0 = some 1) ∧
    (lookupKV (rejectStep selectiveCfg 0 0
        (run selectiveCfg
          [CacheEvent.addOrGetE 0, CacheEvent.removeE 0, CacheEvent.addOrGetE 0]
          initState)).cache 0 = none) :=
  ⟨by decide,
   (late_rejection_clobbers selectiveCfg 0 0 1 0
      (run selectiveCfg
        [CacheEvent.addOrGetE 0, CacheEvent.removeE 0, CacheEvent.addOrGetE 0]
        initState)
      (by decide) (by decide) (by decide) (by decide) (by decide)).1⟩

/-- C5 (failing trace): under the sliding policy the source breaks the
timer/entry coupling invariant.  After addOrGet(0), remove(0) and the
fulfilment of the orphaned promise — whose then-handler calls gc.update
unconditionally — a GC timer is live for key 0 although no entry is cached
(pending-timer keys are not a subset of cached keys); a further addOrGet(0)
schedules a second timer while the stale one is still live (two pending
timers for one key, since GarbageCollector.schedule overwrites the stored
handle without clearing it); and when the stale timer fires its cleanup
removes the newer entry and cancels the newer timer. -/
theorem gc_timer_invariant_broken :
    (lookupKV (run slidingCfg
        [CacheEvent.addOrGetE 0, CacheEvent.removeE 0, CacheEvent.resolveE 0]
        initState).cache 0 = none ∧
     (run slidingCfg
        [CacheEvent.addOrGetE 0, CacheEvent.removeE 0, CacheEvent.resolveE 0]
        initState).liveTimers = [(1, 0)]) ∧
    ((run slidingCfg
        [CacheEvent.addOrGetE 0, CacheEvent.removeE 0, CacheEvent.resolveE 0,
         CacheEvent.addOrGetE 0]
        initState).liveTimers = [(2, 0), (1, 0)] ∧
     lookupKV (run slidingCfg
        [CacheEvent.addOrGetE 0, CacheEvent.removeE 0, CacheEvent.resolveE 0,
         CacheEvent.addOrGetE 0]
        initState).cache 0 = some 1) ∧
    (lookupKV (run slidingCfg
        [CacheEvent.addOrGetE 0, CacheEvent.removeE 0, CacheEvent.resolveE 0,
         CacheEvent.addOrGetE 0, CacheEvent.fireE 1]
        initState).cache 0 = none ∧
     (run slidingCfg
        [CacheEvent.addOrGetE 0, CacheEvent.removeE 0, CacheEvent.resolveE 0,
         CacheEvent.addOrGetE 0, CacheEvent.fireE 1]
        initState).liveTimers = []) := by
  exact ⟨⟨by decide, by decide⟩, ⟨by decide, by decide⟩, by decide, by decide⟩

end PromiseCacheModel

namespace AttachBroker

theorem foldl_mono_subset (f : Finset Nat → Nat → Finset Nat)
    (hf : ∀ acc t, acc ⊆ f acc t) :
    ∀ (l : List Nat) (acc : Finset Nat), acc ⊆ l.foldl f acc
  | [], _ => subset_rfl
  | t :: l, acc => (hf acc t).trans (foldl_mono_subset f hf l (f acc t))

theorem subset_setAttachedF (refs : Nat → List Nat) :
    ∀ (fuel : Nat) (s : Finset Nat) (b : Nat), s ⊆ setAttachedF refs fuel s b
  | 0, _, _ => subset_rfl
  | fuel + 1, s, b => by
      rw [setAttachedF]
      by_cases hb : b ∈ s
      · rw [if_pos hb]
      · rw [if_neg hb]
        refine (Finset.subset_insert b s).trans
          (foldl_mono_subset _ (fun acc t => ?_) (refs b) (insert b s))
        by_cases ht : t ∈ acc
        · rw [if_pos ht]
        · rw [if_neg ht]
          exact subset_setAttachedF refs fuel acc t

theorem foldl_attach_sound (refs : Nat → List Nat) (fuel : Nat)
    (s : Finset Nat) (b : Nat)
    (IH : ∀ (s2 : Finset Nat) (b2 x2 : Nat),
        x2 ∈ setAttachedF refs fuel s2 b2 → x2 ∈ s2 ∨ Reaches refs b2 x2) :
    ∀ (l : List Nat) (acc : Finset Nat),
      (∀ t ∈ l, t ∈ refs b) →
      (∀ y ∈ acc, y ∈ s ∨ Reaches refs b y) →
      ∀ x ∈ l.foldl
          (fun acc t => if t ∈ acc then acc else setAttachedF refs fuel acc t)
          acc,
        x ∈ s ∨ Reaches refs b x
  | [], acc, _, hacc, x, hx => hacc x hx
  | t :: l, acc, hl, hacc, x, hx => by
      refine foldl_attach_sound refs fuel s b IH l _
        (fun u hu => hl u (List.mem_cons_of_mem t hu)) ?_ x hx
      intro y hy
      dsimp only at hy
      by_cases ht : t ∈ acc
      · rw [if_pos ht] at hy
        exact hacc y hy
      · rw [if_neg ht] at hy
        rcases IH acc t y hy with h | h
        · exact hacc y h
        · exact Or.inr
            ((Relation.ReflTransGen.single (hl t (List.mem_cons_self t l))).trans h)

theorem setAttachedF_sound (refs : Nat → List Nat) :
    ∀ (fuel : Nat) (s : Finset Nat) (b x : Nat),
      x ∈ setAttachedF refs fuel s b → x ∈ s ∨ Reaches refs b x
  | 0, _, _, _, hx => Or.inl hx
  | fuel + 1, s, b, x, hx => by
      rw [setAttachedF] at hx
      by_cases hb : b ∈ s
      · rw [if_pos hb] at hx
        exact Or.inl hx
      · rw [if_neg hb] at hx
        refine foldl_attach_sound refs fuel s b
          (fun s2 b2 x2 => setAttachedF_sound refs fuel s2 b2 x2)
          (refs b) (insert b s) (fun t ht => ht) ?_ x hx
        intro y hy
        rcases Finset.mem_insert.mp hy with h | h
        · exact Or.inr (h ▸ Relation.ReflTransGen.refl)
        · exact Or.inl h

theorem setAttachedF_complete (refs : Nat → List Nat) (N : Nat)
    (hrefs : ∀ a t, t ∈ refs a → t < N) :
    ∀ (fuel : Nat) (s : Finset Nat) (b : Nat),
      b < N → (Finset.range N \ s).card < fuel →
      b ∈ setAttachedF refs fuel s b ∧
      s ⊆ setAttachedF refs fuel s b ∧
      (∀ a ∈ setAttachedF refs fuel s b, a ∉ s →
        ∀ t ∈ refs a, t ∈ setAttachedF refs fuel s b)
  | 0, s, b, _, hcard => absurd hcard (Nat.not_lt_zero _)
  | fuel + 1, s, b, hb, hcard => by
      rw [setAttachedF]
      by_cases hbs : b ∈ s
      · rw [if_pos hbs]
        exact ⟨hbs, subset_rfl, fun a ha hans _ _ => absurd ha hans⟩
      · rw [if_neg hbs]
        have H : ∀ (l : List Nat), (∀ t ∈ l, t < N) →
            ∀ (acc : Finset Nat), insert b s ⊆ acc →
            (Finset.range N \ acc).card < fuel →
            (∀ a ∈ acc, a ∉ s → a ≠ b → ∀ t ∈ refs a, t ∈ acc) →
            acc ⊆ l.foldl
              (fun acc t => if t ∈ acc then acc else setAttachedF refs fuel acc t)
              acc ∧
            (∀ a ∈ l.foldl
                (fun acc t => if t ∈ acc then acc else setAttachedF refs fuel acc t)
                acc, a ∉ s → a ≠ b → ∀ t ∈ refs a,
              t ∈ l.foldl
                (fun acc t => if t ∈ acc then acc else setAttachedF refs fuel acc t)
                acc) ∧
            (∀ t ∈ l, t ∈ l.foldl
                (fun acc t => if t ∈ acc then acc else setAttachedF refs fuel acc t)
                acc) := by
          intro l
          induction l with
          | nil =>
              intro _ acc _ _ hclosedacc
              exact ⟨subset_rfl, fun a ha => hclosedacc a ha, fun t ht => absurd ht (List.not_mem_nil t)⟩
          | cons t l ihl =>
              intro hlN acc hins hcardacc hclosedacc
              by_cases ht : t ∈ acc
              · rw [List.foldl_cons, if_pos ht]
                obtain ⟨h1, h2, h3⟩ := ihl (fun u hu => hlN u (List.mem_cons_of_mem t hu))
                  acc hins hcardacc hclosedacc
                refine ⟨h1, h2, ?_⟩
                intro u hu
                rcases List.mem_cons.mp hu with h | h
                · exact h1 (h ▸ ht)
                · exact h3 u h
              · rw [List.foldl_cons, if_neg ht]
                obtain ⟨htmem, haccsub, hclosenew⟩ :=
                  setAttachedF_complete refs N hrefs fuel acc t
                    (hlN t (List.mem_cons_self t l)) hcardacc
                have hins2 : insert b s ⊆ setAttachedF refs fuel acc t :=
                  hins.trans haccsub
                have hcard2 : (Finset.range N \ setAttachedF refs fuel acc t).card
                    < fuel := by
                  refine lt_of_le_of_lt (Finset.card_le_card ?_) hcardacc
                  exact Finset.sdiff_subset_sdiff subset_rfl haccsub
                have hclosed2 : ∀ a ∈ setAttachedF refs fuel acc t, a ∉ s →
                    a ≠ b → ∀ u ∈ refs a, u ∈ setAttachedF refs fuel acc t := by
                  intro a ha has hab u hu
                  by_cases hacc : a ∈ acc
                  · exact haccsub (hclosedacc a hacc has hab u hu)
                  · exact hclosenew a ha hacc u hu
                obtain ⟨h1, h2, h3⟩ := ihl (fun u hu => hlN u (List.mem_cons_of_mem t hu))
                  (setAttachedF refs fuel acc t) hins2 hcard2 hclosed2
                refine ⟨haccsub.trans h1, h2, ?_⟩
                intro u hu
                rcases List.mem_cons.mp hu with h | h
                · exact h1 (h ▸ htmem)
                · exact h3 u h
        have hbn : b ∈ Finset.range N \ s := by
          rw [Finset.mem_sdiff, Finset.mem_range]
          exact ⟨hb, hbs⟩
        have hcardins : (Finset.range N \ insert b s).card < fuel := by
          have hss : Finset.range N \ insert b s ⊂ Finset.range N \ s := by
            constructor
            · exact Finset.sdiff_subset_sdiff subset_rfl (Finset.subset_insert b s)
            · intro hsub
              have := hsub hbn
              rw [Finset.mem_sdiff] at this
              exact this.2 (Finset.mem_insert_self b s)
          have h1 := Finset.card_lt_card hss
          omega
        have hclosedins : ∀ a ∈ insert b s, a ∉ s → a ≠ b →
            ∀ t ∈ refs a, t ∈ insert b s := by
          intro a ha has hab
          rcases Finset.mem_insert.mp ha with h | h
          · exact absurd h hab
          · exact absurd h has
        obtain ⟨h1, h2, h3⟩ := H (refs b) (fun t ht => hrefs b t ht)
          (insert b s) subset_rfl hcardins hclosedins
        have hbin : b ∈ (refs b).foldl
            (fun acc t => if t ∈ acc then acc else setAttachedF refs fuel acc t)
            (insert b s) := h1 (Finset.mem_insert_self b s)
        refine ⟨hbin, (Finset.subset_insert b s).trans h1, ?_⟩
        intro a ha has t ht
        by_cases hab : a = b
        · exact h3 t (hab ▸ ht)
        · exact h2 a ha has hab t ht

end AttachBroker

namespace AttachBroker

/-- C3: attachment closure.  For any finite reference graph (cycles and
diamonds included) whose attached set satisfies the invariant that attached
brokers only reference attached brokers (the invariant the broker API keeps
when every attachFn synchronously calls setAttached), a call to setAttached
on broker b attaches exactly the brokers reachable from b plus those already
attached: every broker reachable from b ends up attached, no broker outside
the previously attached set and the set reachable from b (which is attached
once the call returns) is marked attached as a side effect, and the result
is the same for every fuel above the number of unattached brokers — the
propagation terminates at that closure. -/
theorem setAttached_closure (refs : Nat → List Nat) (N fuel : Nat)
    (s : Finset Nat) (b : Nat)
    (hrefs : ∀ a t, t ∈ refs a → t < N)
    (hb : b < N)
    (hclosed : RefClosed refs s)
    (hfuel : (Finset.range N \ s).card < fuel) :
    ∀ x, x ∈ setAttachedF refs fuel s b ↔ (x ∈ s ∨ Reaches refs b x) := by
  intro x
  constructor
  · exact setAttachedF_sound refs fuel s b x
  · rintro (hx | hx)
    · exact subset_setAttachedF refs fuel s b hx
    · obtain ⟨hbmem, hssub, hclosure⟩ :=
        setAttachedF_complete refs N hrefs fuel s b hb hfuel
      unfold Reaches at hx
      induction hx with
      | refl => exact hbmem
      | tail hreach hstep ih =>
          rename_i y x2
          by_cases hy : y ∈ s
          · exact hssub (hclosed y hy x2 hstep)
          · exact hclosure y ih hy x2 hstep

/-- Witness for C3: on the concrete diamond-with-cycle graph, broker 3 is
attached after setAttached on broker 0, as the closure theorem states. -/
theorem setAttached_closure_witness :
    ((0 : Nat) < 5) ∧ ((Finset.range 5 \ (∅ : Finset Nat)).card < 6) ∧
    (3 ∈ setAttachedF demoRefs 6 ∅ 0 ↔
      (3 ∈ (∅ : Finset Nat) ∨ Reaches demoRefs 0 3)) :=
  ⟨by decide, by decide,
   setAttached_closure demoRefs 5 6 ∅ 0
     (by
       intro a t ht
       by_cases ha : a < 5
       · interval_cases a <;> simp [demoRefs] at ht <;> omega
       · unfold demoRefs at ht
         rw [List.getD_eq_default] at ht
         · exact absurd ht (List.not_mem_nil t)
         · simp
           omega)
     (by decide)
     (fun a ha => absurd ha (Finset.not_mem_empty a))
     (by decide) 3⟩

/-- C9: attach has no in-progress guard.  On an unattached broker whose
attachFn suspends before calling setAttached, every attach call invokes
attachFn — two attach calls before setAttached invoke it twice — and only
once isAttached is true is attach a no-op. -/
theorem attach_no_inprogress_guard (s : BrokerState) :
    (s.isAttached = false →
       (brokerAttach s).attachFnCalls = s.attachFnCalls + 1 ∧
       (brokerAttach s).isAttached = false ∧
       (brokerAttach (brokerAttach s)).attachFnCalls = s.attachFnCalls + 2 ∧
       (brokerSetAttached (brokerAttach s)).isAttached = true ∧
       brokerAttach (brokerSetAttached (brokerAttach s))
         = brokerSetAttached (brokerAttach s)) ∧
    (s.isAttached = true → brokerAttach s = s) := by
  constructor
  · intro h
    simp [brokerAttach, brokerSetAttached, h]
  · intro h
    simp [brokerAttach, h]

/-- Witness for C9: a concrete unattached broker sees attachFn invoked twice
by two attach calls. -/
theorem attach_no_inprogress_guard_witness :
    ((⟨false, 0⟩ : BrokerState).isAttached = false) ∧
    (brokerAttach (brokerAttach ⟨false, 0⟩)).attachFnCalls = 0 + 2 :=
  ⟨rfl, ((attach_no_inprogress_guard ⟨false, 0⟩).1 rfl).2.2.1⟩

end AttachBroker

namespace AttachBroker

theorem setAttachedF_refClosed (refs : Nat → List Nat) (N fuel : Nat)
    (s : Finset Nat) (b : Nat)
    (hrefs : ∀ a t, t ∈ refs a → t < N)
    (hb : b < N)
    (hclosed : RefClosed refs s)
    (hfuel : (Finset.range N \ s).card < fuel) :
    RefClosed refs (setAttachedF refs fuel s b) := by
  intro a ha t ht
  by_cases has : a ∈ s
  · exact subset_setAttachedF refs fuel s b (hclosed a has t ht)
  · exact (setAttachedF_complete refs N hrefs fuel s b hb hfuel).2.2 a ha has t ht

end AttachBroker
